import Mathlib

/-!
Shallow embedding of `src/stack.py`: a linked-frame stack with a constant-time
minimum query.  A `StackFrame` chain (namedtuple `(subframe, value)` ending in
the sentinel `StackFrame((), None)`) is embedded as a `List α` of the stored
values, the sentinel frame being `[]`; the `value` attribute of a frame is then
`List.head?` (the sentinel carries Python `None`, embedded as `Option.none`).

A `Stack` object has three instance attributes: `top` (head of the main chain),
`top_min` (head of the auxiliary minimum chain) and `iter_curr` (the iteration
cursor set by `__iter__`; a fresh object has no such attribute, which we embed
as `[]` -- no claim concerns `__next__` before the first `__iter__`).

Python raises exceptions while leaving any mutations made so far on the object;
we therefore embed a fallible operation as `Except (Err × Stack α) ...`, the
error carrying the post-state of the object at the moment of the raise.

Comparison via the Python `<=` operator can itself raise `TypeError` for
incomparable values, so it is embedded as a function `α → α → Option Bool`,
`none` standing for the raised `TypeError`.
-/

namespace PyStack

/-- The exception classes of `stack.py`, plus the `TypeError` raised by
`Stack.__init__` for an unsupported number of positional arguments (the error
the specification names `InvalidArgumentCount`). -/
inductive Err where
  | emptyStackPopError
  | incomparableValueError
  | protectedValueError
  | invalidArgumentCount
deriving DecidableEq, Repr

/-- An argument to `Stack.push`: either the protected sentinel frame object
`Stack._SENTINEL` itself, or an ordinary value of the element type. -/
inductive Item (α : Type) where
  | sentinelItem
  | val (a : α)
deriving DecidableEq, Repr

/-- The instance attributes of a `Stack` object.  `top` and `top_min` are the
two frame chains, listed from the head frame down to (but excluding) the
sentinel; `iter_curr` is the shared iteration cursor. -/
structure Stack (α : Type) where
  top : List α
  top_min : List α
  iter_curr : List α
deriving DecidableEq, Repr

/-- A freshly initialized empty stack: `self.top = self.top_min = _SENTINEL`
(and no iteration has started). -/
def emptyStack {α : Type} : Stack α := ⟨[], [], []⟩

/-- The `value` attribute of the head frame of a chain: the sentinel frame
holds Python `None`, embedded as `Option.none`. -/
def frameValue {α : Type} (chain : List α) : Option α := chain.head?

/-- Property `Stack.is_empty`: true iff `self.top == Stack._SENTINEL`. -/
def Stack.is_empty {α : Type} (s : Stack α) : Bool := s.top.isEmpty

/-- Method `Stack.push(new_top)`.  Raises `ProtectedValueError` for the sentinel
before any mutation.  Otherwise it first reassigns `self.top` to a new frame
and only then decides about the auxiliary chain; if the comparison
`new_top <= self.top_min.value` raises `TypeError` (`le` returns `none`), the
raised `IncomparableValueError` leaves the already-mutated `top` in place --
the error value carries that post-state. -/
def Stack.push {α : Type} (le : α → α → Option Bool) (item : Item α)
    (s : Stack α) : Except (Err × Stack α) (Stack α) :=
  match item with
  | .sentinelItem => .error (.protectedValueError, s)
  | .val v =>
    let s1 : Stack α := { s with top := v :: s.top }
    match s1.top_min with
    | [] => .ok { s1 with top_min := [v] }
    | m :: _ =>
      match le v m with
      | none => .error (.incomparableValueError, s1)
      | some true => .ok { s1 with top_min := v :: s1.top_min }
      | some false => .ok s1

/-- Method `Stack.pop()`.  Raises `EmptyStackPopError` on an empty stack (`self.top`
is the sentinel, i.e. `[]`); otherwise advances `top` and, when the popped
value equals `self.top_min.value` (value equality), also advances `top_min`.
When `top_min` is the sentinel its `value` is `None`, which never equals a
stored element value, so the auxiliary chain is left alone in that case. -/
def Stack.pop {α : Type} [DecidableEq α] (s : Stack α) :
    Except (Err × Stack α) (α × Stack α) :=
  match s.top with
  | [] => .error (.emptyStackPopError, s)
  | v :: rest =>
    let s1 : Stack α := { s with top := rest }
    match s1.top_min with
    | m :: mrest =>
      if m = v then .ok (v, { s1 with top_min := mrest }) else .ok (v, s1)
    | [] => .ok (v, s1)

/-- Method `Stack.min()`: returns `self.top_min.value` directly (`None`, i.e.
`Option.none`, when the auxiliary chain is the bare sentinel). -/
def Stack.min {α : Type} (s : Stack α) : Option α := frameValue s.top_min

/-- Method `Stack.__iter__`: sets `self.iter_curr = self.top` and returns `self`
(the same object, embedded as the updated state). -/
def Stack.iter {α : Type} (s : Stack α) : Stack α :=
  { s with iter_curr := s.top }

/-- Method `Stack.__next__`: yields `self.iter_curr.value` and advances the cursor,
or signals `StopIteration` (embedded as `none`) at the sentinel. -/
def Stack.next {α : Type} (s : Stack α) : Option (α × Stack α) :=
  match s.iter_curr with
  | [] => none
  | v :: rest => some (v, { s with iter_curr := rest })

/-- The loop inside `list(self)`: repeated `__next__` until `StopIteration`.
Only `iter_curr` changes along the way; `top` and `top_min` are carried
through untouched. -/
def drainLoop {α : Type} (top top_min : List α) : List α → List α × Stack α
  | [] => ([], ⟨top, top_min, []⟩)
  | v :: rest =>
    let p := drainLoop top top_min rest
    (v :: p.1, p.2)

/-- Evaluation of `list(self)`: `iter(self)` (resetting the shared cursor to `top`) followed
by the `__next__` loop.  Returns the yielded values and the post-state. -/
def pyList {α : Type} (s : Stack α) : List α × Stack α :=
  drainLoop s.top s.top_min (Stack.iter s).iter_curr

/-- Method `Stack.bottom()`: `None if self.is_empty else list(self)[-1]`. -/
def Stack.bottom {α : Type} (s : Stack α) : Option α × Stack α :=
  if s.is_empty then (none, s)
  else
    let p := pyList s
    (p.1.getLast?, p.2)

/-- A positional argument to `Stack.__init__`: either an iterable over values
(its elements in iteration order) or a single non-iterable object. -/
inductive InitArg (α : Type) where
  | iterable (l : List α)
  | scalar (v : α)

/-- The loop `for val in values: self.push(val)` of `Stack.__init__`. -/
def pushAll {α : Type} (le : α → α → Option Bool) :
    List α → Stack α → Except (Err × Stack α) (Stack α)
  | [], s => .ok s
  | v :: rest, s =>
    match Stack.push le (.val v) s with
    | .ok s1 => pushAll le rest s1
    | .error e => .error e

/-- Method `Stack.__init__(*values)`.  Zero arguments: both chains are the sentinel.
More than one argument: raises `TypeError` (named `InvalidArgumentCount` by the specification)
before any value is pushed, and no stack object is produced.  One argument:
iterate over it pushing each element, or, for a non-iterable object (iteration
raises `TypeError` immediately), push the object itself.  The `except
TypeError` fallback that re-pushes a partially consumed iterable can only fire
when a push inside the loop raises `IncomparableValueError`; every claim below
instantiates the element comparison with a total order, under which pushes of
ordinary values never raise, so that path stays unreachable and a push error is
simply propagated out of the failed constructor. -/
def stackInit {α : Type} (le : α → α → Option Bool) (args : List (InitArg α)) :
    Except Err (Stack α) :=
  match args with
  | [] => .ok emptyStack
  | [arg] =>
    match arg with
    | .iterable l =>
      match pushAll le l emptyStack with
      | .ok s => .ok s
      | .error (e, _) => .error e
    | .scalar v =>
      match Stack.push le (.val v) emptyStack with
      | .ok s => .ok s
      | .error (e, _) => .error e
  | _ => .error .invalidArgumentCount

/-- One stack operation, for reasoning about operation sequences. -/
inductive Op (α : Type) where
  | push (v : α)
  | pop

/-- Applies one operation; `none` when the operation raises. -/
def runOp {α : Type} [DecidableEq α] (le : α → α → Option Bool) (op : Op α)
    (s : Stack α) : Option (Stack α) :=
  match op with
  | .push v =>
    match Stack.push le (.val v) s with
    | .ok s1 => some s1
    | .error _ => none
  | .pop =>
    match Stack.pop s with
    | .ok (_, s1) => some s1
    | .error _ => none

/-- Applies a sequence of operations, all of which must succeed. -/
def runOps {α : Type} [DecidableEq α] (le : α → α → Option Bool) :
    List (Op α) → Stack α → Option (Stack α)
  | [], s => some s
  | op :: rest, s =>
    match runOp le op s with
    | some s1 => runOps le rest s1
    | none => none

/-- The Python `<=` operator on a totally ordered element type: the comparison
always succeeds. -/
def leTotal {α : Type} [LinearOrder α] (a b : α) : Option Bool :=
  some (decide (a ≤ b))

/-- The auxiliary chain determined by a main chain: recomputed bottom-up by
the push rule (extend when the auxiliary chain is empty or the new value is
less than or equal to its head). -/
def auxOf {α : Type} [LinearOrder α] : List α → List α
  | [] => []
  | v :: rest =>
    match auxOf rest with
    | [] => [v]
    | m :: t => if v ≤ m then v :: m :: t else m :: t

/-- The linear-scan minimum of a list of values (`none` for the empty list),
the cross-check the specification demands for `min()`. -/
def listMin {α : Type} [LinearOrder α] : List α → Option α
  | [] => none
  | v :: rest =>
    match listMin rest with
    | none => some v
    | some m => some (Min.min v m)

/-- The auxiliary-chain invariant maintained by successful operations. -/
def Inv {α : Type} [LinearOrder α] (s : Stack α) : Prop :=
  s.top_min = auxOf s.top

/-- Runs `n` successive calls of `Stack.pop`, collecting the popped values in the
order they are returned; `none` as soon as a pop raises. -/
def popN {α : Type} [DecidableEq α] : Nat → Stack α → Option (List α × Stack α)
  | 0, s => some ([], s)
  | n + 1, s =>
    match Stack.pop s with
    | .ok (v, s1) =>
      match popN n s1 with
      | some (vs, s2) => some (v :: vs, s2)
      | none => none
    | .error _ => none

/-- A miniature dynamically-typed value domain with two mutually incomparable
kinds, mirroring Python numbers and strings: in Python 3 the expression
`3 <= "x"` raises `TypeError`. -/
inductive PyVal where
  | pnum (n : Nat)
  | pstr (s : String)
deriving DecidableEq, Repr

/-- The Python `<=` operator on `PyVal`: a comparison across the two kinds
raises `TypeError`, embedded as `none`. -/
def pyLe : PyVal → PyVal → Option Bool
  | .pnum a, .pnum b => some (decide (a ≤ b))
  | .pstr a, .pstr b => some (decide (a ≤ b))
  | _, _ => none

theorem push_leTotal_ok {α : Type} [LinearOrder α] (v : α) (s : Stack α) :
    ∃ tm : List α,
      Stack.push leTotal (Item.val v) s = .ok ⟨v :: s.top, tm, s.iter_curr⟩ := by
  obtain ⟨t, tm, ic⟩ := s
  cases tm with
  | nil => exact ⟨[v], rfl⟩
  | cons m mt =>
    by_cases hv : v ≤ m
    · exact ⟨v :: m :: mt, by simp [Stack.push, leTotal, hv]⟩
    · exact ⟨m :: mt, by simp [Stack.push, leTotal, hv]⟩

theorem push_Inv {α : Type} [LinearOrder α] {v : α} {s s1 : Stack α}
    (hInv : Inv s) (h : Stack.push leTotal (Item.val v) s = .ok s1) :
    Inv s1 ∧ s1.top = v :: s.top ∧ s1.iter_curr = s.iter_curr := by
  obtain ⟨t, tm, ic⟩ := s
  cases tm with
  | nil =>
    simp only [Stack.push] at h
    injection h with h1
    subst h1
    refine ⟨?_, rfl, rfl⟩
    have ht : auxOf t = [] := hInv.symm
    simp [Inv, auxOf, ht]
  | cons m mt =>
    have ht : auxOf t = m :: mt := hInv.symm
    by_cases hv : v ≤ m
    · simp only [Stack.push, leTotal, decide_eq_true hv] at h
      injection h with h1
      subst h1
      refine ⟨?_, rfl, rfl⟩
      simp [Inv, auxOf, ht, hv]
    · simp only [Stack.push, leTotal, decide_eq_false hv] at h
      injection h with h1
      subst h1
      refine ⟨?_, rfl, rfl⟩
      simp [Inv, auxOf, ht, hv]

theorem pop_cons_eq {α : Type} [DecidableEq α] (w : α) (rest mt ic : List α) :
    Stack.pop ⟨w :: rest, w :: mt, ic⟩ = .ok (w, ⟨rest, mt, ic⟩) := by
  simp [Stack.pop]

theorem pop_cons_ne {α : Type} [DecidableEq α] {w m : α} (hne : m ≠ w)
    (rest mt ic : List α) :
    Stack.pop ⟨w :: rest, m :: mt, ic⟩ = .ok (w, ⟨rest, m :: mt, ic⟩) := by
  simp [Stack.pop, hne]

theorem pop_Inv {α : Type} [LinearOrder α] {s s1 : Stack α} {v : α}
    (hInv : Inv s) (h : Stack.pop s = .ok (v, s1)) :
    Inv s1 ∧ s.top = v :: s1.top ∧ s1.iter_curr = s.iter_curr := by
  obtain ⟨t, tm, ic⟩ := s
  cases t with
  | nil => exact absurd h (by simp [Stack.pop])
  | cons w rest =>
    have htm : tm = auxOf (w :: rest) := hInv
    cases har : auxOf rest with
    | nil =>
      simp only [auxOf, har] at htm
      subst htm
      rw [pop_cons_eq] at h
      injection h with h1
      injection h1 with hv hs
      subst hv; subst hs
      exact ⟨har.symm, rfl, rfl⟩
    | cons m0 t0 =>
      by_cases hw : w ≤ m0
      · have htm2 : tm = w :: m0 :: t0 := by
          rw [htm]; simp [auxOf, har, hw]
        subst htm2
        rw [pop_cons_eq] at h
        injection h with h1
        injection h1 with hv hs
        subst hv; subst hs
        exact ⟨har.symm, rfl, rfl⟩
      · have htm2 : tm = m0 :: t0 := by
          rw [htm]; simp [auxOf, har, hw]
        subst htm2
        have hne : m0 ≠ w := fun he => hw (le_of_eq he.symm)
        rw [pop_cons_ne hne] at h
        injection h with h1
        injection h1 with hv hs
        subst hv; subst hs
        exact ⟨har.symm, rfl, rfl⟩

theorem runOp_Inv {α : Type} [LinearOrder α] {op : Op α} {s s1 : Stack α}
    (hInv : Inv s) (h : runOp leTotal op s = some s1) : Inv s1 := by
  cases op with
  | push v =>
    cases hp : Stack.push leTotal (Item.val v) s with
    | ok s2 =>
      simp only [runOp, hp] at h
      injection h with h1
      subst h1
      exact (push_Inv hInv hp).1
    | error e => simp only [runOp, hp] at h; cases h
  | pop =>
    cases hp : Stack.pop s with
    | ok p =>
      obtain ⟨v, s2⟩ := p
      simp only [runOp, hp] at h
      injection h with h1
      subst h1
      exact (pop_Inv hInv hp).1
    | error e => simp only [runOp, hp] at h; cases h

theorem runOps_Inv {α : Type} [LinearOrder α] :
    ∀ (ops : List (Op α)) (s s1 : Stack α), Inv s →
      runOps leTotal ops s = some s1 → Inv s1 := by
  intro ops
  induction ops with
  | nil =>
    intro s s1 hI h
    injection h with h1
    subst h1
    exact hI
  | cons op rest ih =>
    intro s s1 hI h
    unfold runOps at h
    cases hop : runOp leTotal op s with
    | none => rw [hop] at h; cases h
    | some s2 =>
      rw [hop] at h
      exact ih s2 s1 (runOp_Inv hI hop) h

theorem auxOf_head {α : Type} [LinearOrder α] (l : List α) :
    (auxOf l).head? = listMin l := by
  induction l with
  | nil => rfl
  | cons v rest ih =>
    cases har : auxOf rest with
    | nil =>
      rw [har] at ih
      simp only [auxOf, listMin, har, ← ih]
      rfl
    | cons m t =>
      rw [har] at ih
      by_cases hv : v ≤ m
      · simp only [auxOf, listMin, har, ← ih, if_pos hv, List.head?]
        exact congrArg some (min_eq_left hv).symm
      · simp only [auxOf, listMin, har, ← ih, if_neg hv, List.head?]
        exact congrArg some (min_eq_right (le_of_not_le hv)).symm

example :
    runOps leTotal [Op.push (10 : ℤ), Op.push 9, Op.push 11, Op.push 0,
      Op.push 10] emptyStack = some ⟨[10, 0, 11, 9, 10], [0, 9, 10], []⟩ := by
  decide

theorem drainLoop_spec {α : Type} (top top_min : List α) :
    ∀ cur : List α, drainLoop top top_min cur = (cur, ⟨top, top_min, []⟩) := by
  intro cur
  induction cur with
  | nil => rfl
  | cons v rest ih => simp [drainLoop, ih]

theorem pyList_spec {α : Type} (s : Stack α) :
    pyList s = (s.top, ⟨s.top, s.top_min, []⟩) :=
  drainLoop_spec s.top s.top_min s.top

theorem pop_cons_exists {α : Type} [DecidableEq α] (w : α)
    (rest tm ic : List α) :
    ∃ tmx : List α,
      Stack.pop ⟨w :: rest, tm, ic⟩ = .ok (w, ⟨rest, tmx, ic⟩) := by
  cases tm with
  | nil => exact ⟨[], by simp [Stack.pop]⟩
  | cons m mt =>
    by_cases hm : m = w
    · subst hm
      exact ⟨mt, pop_cons_eq m rest mt ic⟩
    · exact ⟨m :: mt, pop_cons_ne hm rest mt ic⟩

theorem pushAll_leTotal_ok {α : Type} [LinearOrder α] :
    ∀ (l : List α) (s : Stack α), ∃ tm : List α,
      pushAll leTotal l s = .ok ⟨l.reverse ++ s.top, tm, s.iter_curr⟩ := by
  intro l
  induction l with
  | nil => intro s; exact ⟨s.top_min, rfl⟩
  | cons v rest ih =>
    intro s
    obtain ⟨tm1, h1⟩ := push_leTotal_ok v s
    obtain ⟨tm2, h2⟩ := ih ⟨v :: s.top, tm1, s.iter_curr⟩
    refine ⟨tm2, ?_⟩
    simp only [pushAll, h1, h2]
    simp [List.append_assoc]

theorem stackInit_iterable {α : Type} [LinearOrder α] (l : List α) :
    ∃ tm : List α,
      stackInit leTotal [InitArg.iterable l] = .ok ⟨l.reverse, tm, []⟩ := by
  obtain ⟨tm, h⟩ := pushAll_leTotal_ok l emptyStack
  refine ⟨tm, ?_⟩
  simp only [stackInit, emptyStack] at h ⊢
  simp only [List.append_nil] at h
  rw [h]

theorem popN_length {α : Type} [DecidableEq α] :
    ∀ (t tm ic : List α), ∃ tm2 : List α,
      popN t.length ⟨t, tm, ic⟩ = some (t, ⟨[], tm2, ic⟩) := by
  intro t
  induction t with
  | nil => intro tm ic; exact ⟨tm, rfl⟩
  | cons w rest ih =>
    intro tm ic
    obtain ⟨tmx, hp⟩ := pop_cons_exists w rest tm ic
    obtain ⟨tm2, h2⟩ := ih tmx ic
    exact ⟨tm2, by simp [popN, hp, h2]⟩

theorem bottom_empty {α : Type} (s : Stack α) (h : s.top.isEmpty = true) :
    Stack.bottom s = (none, s) := by
  simp [Stack.bottom, Stack.is_empty, h]

theorem bottom_nonempty {α : Type} (s : Stack α) (h : s.top.isEmpty = false) :
    Stack.bottom s = (s.top.getLast?, ⟨s.top, s.top_min, []⟩) := by
  simp [Stack.bottom, Stack.is_empty, h, pyList_spec]

/-- C1.  For every stack built by a sequence of successful push and pop
operations over a totally ordered element type, whenever the stack is
non-empty, `min()` returns exactly the linear-scan minimum of the values
currently present in the main chain. -/
theorem c1_min_is_scan_min {α : Type} [LinearOrder α] (ops : List (Op α))
    (s : Stack α) (h : runOps leTotal ops emptyStack = some s)
    (_hne : s.top ≠ []) :
    Stack.min s = listMin s.top := by
  have hInv : Inv s := runOps_Inv ops emptyStack s rfl h
  unfold Stack.min frameValue
  rw [hInv, auxOf_head]

/-- Witness for C1 at the operation sequence push 3, push 5, push 2, pop. -/
theorem c1_min_is_scan_min_witness :
    runOps leTotal [Op.push (3 : ℤ), Op.push 5, Op.push 2, Op.pop] emptyStack
      = some ⟨[5, 3], [3], []⟩ ∧
    Stack.min (⟨[5, 3], [3], []⟩ : Stack ℤ) = listMin [5, 3] :=
  ⟨by decide,
   c1_min_is_scan_min [Op.push (3 : ℤ), Op.push 5, Op.push 2, Op.pop]
     ⟨[5, 3], [3], []⟩ (by decide) (by decide)⟩

/-- C2.  Constructing a stack from a finite sequence of totally ordered,
non-sentinel values and then popping `len(S)` times succeeds, yields the
values in reverse order, and leaves the stack empty. -/
theorem c2_construct_then_pop_reverse {α : Type} [LinearOrder α]
    (l : List α) :
    ∃ s s1 : Stack α,
      stackInit leTotal [InitArg.iterable l] = .ok s ∧
      popN l.length s = some (l.reverse, s1) ∧
      s1.is_empty = true := by
  obtain ⟨tm, hs⟩ := stackInit_iterable l
  obtain ⟨tm2, hp⟩ := popN_length l.reverse tm []
  refine ⟨⟨l.reverse, tm, []⟩, ⟨[], tm2, []⟩, hs, ?_, rfl⟩
  rw [show l.length = l.reverse.length from (List.length_reverse l).symm]
  exact hp

/-- C3.  The code evaluated at the failing input: pushing the string "x" onto
a stack holding the number 3 raises `IncomparableValueError`, but the raise
happens after `self.top` has already been reassigned, so the stack state
observable after the failed call differs from the state before it -- push is
not atomic with respect to this failure, although the specification demands
exactly that. -/
theorem c3_push_failure_mutates_top :
    Stack.push pyLe (Item.val (PyVal.pnum 3)) (emptyStack : Stack PyVal)
      = .ok ⟨[PyVal.pnum 3], [PyVal.pnum 3], []⟩ ∧
    Stack.push pyLe (Item.val (PyVal.pstr "x"))
        (⟨[PyVal.pnum 3], [PyVal.pnum 3], []⟩ : Stack PyVal)
      = .error (Err.incomparableValueError,
          ⟨[PyVal.pstr "x", PyVal.pnum 3], [PyVal.pnum 3], []⟩) ∧
    (⟨[PyVal.pstr "x", PyVal.pnum 3], [PyVal.pnum 3], []⟩ : Stack PyVal)
      ≠ ⟨[PyVal.pnum 3], [PyVal.pnum 3], []⟩ := by
  refine ⟨rfl, rfl, ?_⟩
  decide

/-- C4.  On every stack state, popping when empty raises `EmptyStackPopError`
and pushing the sentinel raises `ProtectedValueError`; in both cases the
stack state carried by the raised error is exactly the pre-call state. -/
theorem c4_empty_pop_and_sentinel_push {α : Type} [DecidableEq α]
    (le : α → α → Option Bool) (s : Stack α) :
    (s.is_empty = true → Stack.pop s = .error (Err.emptyStackPopError, s)) ∧
    Stack.push le Item.sentinelItem s = .error (Err.protectedValueError, s) := by
  obtain ⟨t, tm, ic⟩ := s
  constructor
  · intro he
    cases t with
    | nil => rfl
    | cons a b => simp [Stack.is_empty] at he
  · rfl

/-- Witness for C4 at the freshly initialized empty integer stack. -/
theorem c4_empty_pop_and_sentinel_push_witness :
    Stack.pop (emptyStack : Stack ℤ)
      = .error (Err.emptyStackPopError, emptyStack) ∧
    Stack.push leTotal Item.sentinelItem (emptyStack : Stack ℤ)
      = .error (Err.protectedValueError, emptyStack) :=
  ⟨(c4_empty_pop_and_sentinel_push leTotal emptyStack).1 rfl,
   (c4_empty_pop_and_sentinel_push leTotal emptyStack).2⟩

/-- C5 counterexample.  In the spec scenario push 10, 9, 11, 0, 10, the pops
after the first one return 0, 11, 9 (not 10, 0, 11), and after the first pop
plus three further pops the remaining stack is `[10]` with `min() == 10`,
not 9 as the specification states. -/
theorem c5_scenario_counterexample :
    runOps leTotal [Op.push (10 : ℤ), Op.push 9, Op.push 11, Op.push 0,
        Op.push 10, Op.pop, Op.pop, Op.pop, Op.pop] emptyStack
      = some ⟨[10], [10], []⟩ ∧
    Stack.min (⟨[10], [10], []⟩ : Stack ℤ) = some 10 ∧
    Stack.min (⟨[10], [10], []⟩ : Stack ℤ) ≠ some 9 ∧
    popN 3 (⟨[0, 11, 9, 10], [0, 9, 10], []⟩ : Stack ℤ)
      = some ([0, 11, 9], ⟨[10], [10], []⟩) ∧
    ([0, 11, 9] : List ℤ) ≠ [10, 0, 11] := by
  refine ⟨by decide, rfl, by decide, by decide, by decide⟩

/-- C5 amended.  Pushing 10, 9, 11, 0, 10 in order gives `min() == 0`; one
pop returns the top value 10 with `min()` still 0; three further pops remove
0, 11, 9 and leave `min() == 10`; a final pop removes 10 and leaves the
stack empty. -/
theorem c5_scenario_amended :
    runOps leTotal [Op.push (10 : ℤ), Op.push 9, Op.push 11, Op.push 0,
        Op.push 10] emptyStack
      = some ⟨[10, 0, 11, 9, 10], [0, 9, 10], []⟩ ∧
    Stack.min (⟨[10, 0, 11, 9, 10], [0, 9, 10], []⟩ : Stack ℤ) = some 0 ∧
    Stack.pop (⟨[10, 0, 11, 9, 10], [0, 9, 10], []⟩ : Stack ℤ)
      = .ok (10, ⟨[0, 11, 9, 10], [0, 9, 10], []⟩) ∧
    Stack.min (⟨[0, 11, 9, 10], [0, 9, 10], []⟩ : Stack ℤ) = some 0 ∧
    popN 3 (⟨[0, 11, 9, 10], [0, 9, 10], []⟩ : Stack ℤ)
      = some ([0, 11, 9], ⟨[10], [10], []⟩) ∧
    Stack.min (⟨[10], [10], []⟩ : Stack ℤ) = some 10 ∧
    Stack.pop (⟨[10], [10], []⟩ : Stack ℤ) = .ok (10, ⟨[], [], []⟩) ∧
    Stack.is_empty (⟨[], [], []⟩ : Stack ℤ) = true := by
  refine ⟨by decide, rfl, ?_, rfl, by decide, rfl, ?_, rfl⟩
  · rw [pop_cons_ne (by decide)]
  · rw [pop_cons_eq]

/-- C6.  Iterating a stack freshly constructed from a totally ordered
sequence yields exactly the reverse of that sequence; a second full
iteration yields the same sequence again, and a full iteration leaves `top`
and `top_min` untouched. -/
theorem c6_iteration_reverse_and_restartable {α : Type} [LinearOrder α]
    (l : List α) :
    ∃ s : Stack α,
      stackInit leTotal [InitArg.iterable l] = .ok s ∧
      (pyList s).1 = l.reverse ∧
      (pyList (pyList s).2).1 = (pyList s).1 ∧
      (pyList s).2.top = s.top ∧
      (pyList s).2.top_min = s.top_min := by
  obtain ⟨tm, hs⟩ := stackInit_iterable l
  exact ⟨⟨l.reverse, tm, []⟩, hs, by rw [pyList_spec],
    by rw [pyList_spec, pyList_spec], by rw [pyList_spec],
    by rw [pyList_spec]⟩

/-- C7.  `bottom()` returns `None` on an empty stack (leaving it untouched);
on a non-empty stack it returns the last element of a full top-to-bottom
traversal; it never changes `top` or `top_min`; and its result is stable
under a push and under a pop that does not remove the bottom element. -/
theorem c7_bottom_spec {α : Type} [LinearOrder α] (s : Stack α) (v : α) :
    (s.is_empty = true → Stack.bottom s = (none, s)) ∧
    (s.top ≠ [] → (Stack.bottom s).1 = s.top.getLast?) ∧
    (Stack.bottom s).2.top = s.top ∧
    (Stack.bottom s).2.top_min = s.top_min ∧
    (∀ s1 : Stack α, Stack.push leTotal (Item.val v) s = .ok s1 →
      s.top ≠ [] → (Stack.bottom s1).1 = (Stack.bottom s).1) ∧
    (∀ (x : α) (s1 : Stack α), Stack.pop s = .ok (x, s1) → s1.top ≠ [] →
      (Stack.bottom s1).1 = (Stack.bottom s).1) := by
  obtain ⟨t, tm, ic⟩ := s
  cases t with
  | nil =>
    have hb : Stack.bottom (⟨[], tm, ic⟩ : Stack α) = (none, ⟨[], tm, ic⟩) :=
      bottom_empty (⟨[], tm, ic⟩ : Stack α) rfl
    refine ⟨fun _ => hb, fun hne => absurd rfl hne, ?_, ?_, ?_, ?_⟩
    · rw [hb]
    · rw [hb]
    · intro s1 hp hne
      exact absurd rfl hne
    · intro x s1 hp
      exact absurd hp (by simp [Stack.pop])
  | cons w rest =>
    have hb : Stack.bottom (⟨w :: rest, tm, ic⟩ : Stack α)
        = ((w :: rest).getLast?, ⟨w :: rest, tm, []⟩) :=
      bottom_nonempty (⟨w :: rest, tm, ic⟩ : Stack α) rfl
    refine ⟨fun he => by simp [Stack.is_empty] at he, fun _ => by rw [hb],
      ?_, ?_, ?_, ?_⟩
    · rw [hb]
    · rw [hb]
    · intro s1 hp hne
      obtain ⟨tm1, h1⟩ := push_leTotal_ok v (⟨w :: rest, tm, ic⟩ : Stack α)
      rw [h1] at hp
      injection hp with hp1
      subst hp1
      rw [bottom_nonempty (⟨v :: w :: rest, tm1, ic⟩ : Stack α) rfl, hb]
      simp [List.getLast?_cons_cons]
    · intro x s1 hp hne
      obtain ⟨tmx, h1⟩ := pop_cons_exists w rest tm ic
      rw [h1] at hp
      injection hp with hp1
      injection hp1 with hx hs1
      subst hx
      subst hs1
      cases rest with
      | nil => exact absurd rfl hne
      | cons b bs =>
        rw [bottom_nonempty (⟨b :: bs, tmx, ic⟩ : Stack α) rfl, hb]
        simp [List.getLast?_cons_cons]

/-- Witness for C7 at the stack with main chain `[5, 3]`. -/
theorem c7_bottom_spec_witness :
    (Stack.bottom (⟨[5, 3], [3], []⟩ : Stack ℤ)).1 = some 3 :=
  ((c7_bottom_spec (⟨[5, 3], [3], []⟩ : Stack ℤ) 0).2.1 (by decide)).trans
    (by decide)

/-- C8.  Invoking the constructor with two or more positional arguments
fails with the unsupported-argument-count error before any push, and no
stack object is produced. -/
theorem c8_too_many_init_args {α : Type} (le : α → α → Option Bool)
    (args : List (InitArg α)) (h : 2 ≤ args.length) :
    stackInit le args = .error Err.invalidArgumentCount := by
  match args with
  | [] => exact absurd h (by simp)
  | [a] => exact absurd h (by simp)
  | a :: b :: t => rfl

/-- Witness for C8 at a two-argument constructor call. -/
theorem c8_too_many_init_args_witness :
    stackInit leTotal [InitArg.scalar (1 : ℤ), InitArg.scalar 2]
      = .error Err.invalidArgumentCount :=
  c8_too_many_init_args leTotal [InitArg.scalar (1 : ℤ), InitArg.scalar 2]
    (by decide)

/-- C9.  On every stack reached by successful operations that is empty,
`min()` raises nothing and returns the sentinel frame value `None`
(embedded as `Option.none`). -/
theorem c9_min_of_empty_is_none {α : Type} [LinearOrder α] (ops : List (Op α))
    (s : Stack α) (h : runOps leTotal ops emptyStack = some s)
    (he : s.is_empty = true) :
    Stack.min s = none := by
  have hInv : Inv s := runOps_Inv ops emptyStack s rfl h
  have ht : s.top = [] := by
    cases hs : s.top with
    | nil => rfl
    | cons a b => rw [Stack.is_empty, hs] at he; simp at he
  unfold Stack.min frameValue
  rw [hInv, ht]
  rfl

/-- Witness for C9 at the sequence push 1 then pop. -/
theorem c9_min_of_empty_is_none_witness :
    runOps leTotal [Op.push (1 : ℤ), Op.pop] emptyStack
      = some ⟨[], [], []⟩ ∧
    Stack.min (⟨[], [], []⟩ : Stack ℤ) = none :=
  ⟨by decide,
   c9_min_of_empty_is_none [Op.push (1 : ℤ), Op.pop] ⟨[], [], []⟩
     (by decide) rfl⟩

/-- C10.  Iteration state is the single shared cursor `iter_curr` on the
stack object itself and `__iter__` returns that same object, so starting a
second traversal (explicitly, or implicitly through `bottom()`) while a
first one is in progress changes what the first traversal yields next: on
the stack built from `[1, 2]`, after yielding 2 the next value would be 1,
but re-entering `__iter__` makes the next value 2 again, and an interleaved
`bottom()` call exhausts the cursor so the next call stops immediately. -/
theorem c10_interleaved_iterations_interfere :
    stackInit leTotal [InitArg.iterable [(1 : ℤ), 2]]
      = .ok ⟨[2, 1], [1], []⟩ ∧
    Stack.iter (⟨[2, 1], [1], []⟩ : Stack ℤ) = ⟨[2, 1], [1], [2, 1]⟩ ∧
    Stack.next (⟨[2, 1], [1], [2, 1]⟩ : Stack ℤ)
      = some (2, ⟨[2, 1], [1], [1]⟩) ∧
    Stack.next (⟨[2, 1], [1], [1]⟩ : Stack ℤ)
      = some (1, ⟨[2, 1], [1], []⟩) ∧
    Stack.iter (⟨[2, 1], [1], [1]⟩ : Stack ℤ) = ⟨[2, 1], [1], [2, 1]⟩ ∧
    Stack.bottom (⟨[2, 1], [1], [1]⟩ : Stack ℤ)
      = (some 1, ⟨[2, 1], [1], []⟩) ∧
    Stack.next (⟨[2, 1], [1], []⟩ : Stack ℤ) = none :=
  ⟨rfl, rfl, rfl, rfl, rfl, rfl, rfl⟩

end PyStack
